import Mathlib

/-!
Verification of the in-memory regulatory-context store (`server/utils.py`,
`server/regulation_store.py`, `server/region_store.py`, `server/main.py`).

Python strings are modelled as `List Char`; Python dicts (which preserve
insertion order and have unique keys) are modelled as association lists
whose key lists are `Nodup`. A dict field that may be absent is modelled
as an `Option`, and a `dict.get(key, default)` access is modelled by the
corresponding default value. File-system contents consumed during loading
and during the region fallback read are passed in explicitly as data.
-/

namespace MCP

/-- Python strings, modelled as lists of unicode characters. -/
abbrev Str := List Char

/-- `s.strip()`: remove leading and trailing whitespace. -/
def pyStrip (s : Str) : Str :=
  ((s.dropWhile Char.isWhitespace).reverse.dropWhile Char.isWhitespace).reverse

/-- `s.lower()`: lowercase every character (`str.lower`, restricted to the
basic-latin letters handled by `Char.toLower`). -/
def pyLower (s : Str) : Str := s.map Char.toLower

/-- `utils.normalize_string`: `s.strip().lower()`. -/
def normalize_string (s : Str) : Str := pyLower (pyStrip s)

/-- Python `hay.find(needle)`: the least index at which `needle` occurs as a
contiguous substring of `hay`, if any (`none` models the return value `-1`). -/
def pyFind (hay needle : Str) : Option Nat :=
  (List.range (hay.length + 1)).find? (fun i => needle.isPrefixOf (hay.drop i))

/-- Python `needle in hay` (substring containment; `hay.find(needle) != -1`). -/
def strIn (needle hay : Str) : Bool := (pyFind hay needle).isSome

/-- Python dict lookup `d.get(k)` on an insertion-ordered association list. -/
def dictGet {κ α : Type} [DecidableEq κ] (k : κ) : List (κ × α) → Option α
  | [] => none
  | (k₂, v) :: rest => if k₂ = k then some v else dictGet k rest

/-- Python dict assignment `d[k] = v`: overwrite in place if the key exists
(keeping its position), otherwise append at the end. -/
def dictInsert {κ α : Type} [DecidableEq κ] (k : κ) (v : α) :
    List (κ × α) → List (κ × α)
  | [] => [(k, v)]
  | (k₂, v₂) :: rest =>
      if k₂ = k then (k, v) :: rest else (k₂, v₂) :: dictInsert k v rest

/-- One entry of a regulation record's `articles` list. `art` models
`article.get("article", ...)` (`none` = key absent), `title` and `summary`
model `article.get("title", "")` and `article.get("summary", "")`. -/
structure Article where
  art : Option Str
  title : Str
  summary : Str
deriving DecidableEq, Repr

/-- A parsed regulation JSON record, with the fields the store inspects.
`id` is `none` when the record lacks an `"id"` key; the remaining fields
model `reg.get("name", "")`, `reg.get("summary", "")`,
`reg.get("articles", [])` and `reg.get("developer_guidance", [])`. -/
structure Regulation where
  id : Option Str
  name : Str
  summary : Str
  articles : List Article
  developer_guidance : List Str
deriving DecidableEq, Repr

/-- The regulation store's identifier map (`self.regulations`), an
insertion-ordered dict keyed by normalized id. -/
abbrev RegStore := List (Str × Regulation)

/-- A search result dict produced by `RegulationStore.search_regulations`. -/
structure SearchResult where
  id : Str
  name : Str
  snippet : Str
  match_type : Str
  all_matches : Nat
deriving DecidableEq, Repr

def mtName : Str := "name".data
def mtSummary : Str := "summary".data
def mtArticleTitle : Str := "article_title".data
def mtArticleSummary : Str := "article_summary".data
def mtGuidance : Str := "developer_guidance".data

/-- `RegulationStore.get_regulation`: normalize the id and look it up. -/
def get_regulation (store : RegStore) (regulation_id : Str) : Option Regulation :=
  dictGet (normalize_string regulation_id) store

/-- `RegulationStore._extract_snippet text keywords context_chars`
(the Python default `context_chars=100` is passed explicitly at call sites). -/
def extract_snippet (text keywords : Str) (context_chars : Nat) : Str :=
  let text_lower := normalize_string text
  let keywords_lower := normalize_string keywords
  match pyFind text_lower keywords_lower with
  | none =>
      if context_chars * 2 < text.length then text.take (context_chars * 2) else text
  | some idx =>
      let start := idx - context_chars
      let stop := min text.length (idx + keywords.length + context_chars)
      let snippet := (text.drop start).take (stop - start)
      let snippet := if 0 < start then "...".data ++ snippet else snippet
      let snippet := if stop < text.length then snippet ++ "...".data else snippet
      snippet

/-- `f"Article {article.get('article', 'N/A')}: "`. -/
def articleTag (a : Article) : Str :=
  "Article ".data ++ a.art.getD ("N/A".data) ++ ": ".data

/-- The `(match_type, snippet)` pairs contributed by one article in
`search_regulations` (title checked before summary). -/
def articleMatches (kw : Str) (a : Article) : List (Str × Str) :=
  (if strIn kw (normalize_string a.title) = true then
    [(mtArticleTitle, articleTag a ++ a.title)] else [])
  ++ (if strIn kw (normalize_string a.summary) = true then
    [(mtArticleSummary, articleTag a ++ extract_snippet a.summary kw 100)] else [])

/-- The full `matches` list built for one record by `search_regulations`,
in the code's append order: name, summary, articles, developer guidance. -/
def regMatches (kw : Str) (reg : Regulation) : List (Str × Str) :=
  (if strIn kw (normalize_string reg.name) = true then [(mtName, reg.name)] else [])
  ++ (if strIn kw (normalize_string reg.summary) = true then
    [(mtSummary, extract_snippet reg.summary kw 100)] else [])
  ++ reg.articles.flatMap (articleMatches kw)
  ++ reg.developer_guidance.filterMap (fun g =>
      if strIn kw (normalize_string g) = true then some (mtGuidance, g) else none)

/-- The main loop of `search_regulations`: iterate the store in insertion
order, skip ids already in `seen_ids`, emit one result per record with a
non-empty match list (primary match = head, `all_matches` = length). -/
def searchPass (kw : Str) : RegStore → List Str → List SearchResult
  | [], _ => []
  | (reg_id, reg) :: rest, seen =>
      if reg_id ∈ seen then searchPass kw rest seen
      else
        match regMatches kw reg with
        | [] => searchPass kw rest seen
        | (t, s) :: ms =>
            { id := reg_id, name := reg.name, snippet := s, match_type := t,
              all_matches := (ms.length + 1) } :: searchPass kw rest (reg_id :: seen)

/-- The ranking key used to sort search results. -/
def rank_key (r : SearchResult) : Nat :=
  if r.match_type = mtName then 0
  else if r.match_type = mtSummary then 1
  else if "article".data.isPrefixOf r.match_type = true then 2
  else 3

/-- The sort comparator `key=rank_key` induces. -/
def rankLE (a b : SearchResult) : Bool := rank_key a ≤ rank_key b

/-- `RegulationStore.search_regulations`: normalize the keywords, build the
result list in store order, then stable-sort by `rank_key` (Python's
`list.sort` is a stable sort; `List.mergeSort` is its extensional model:
any two stable sorts with the same total-preorder key agree pointwise). -/
def search_regulations (store : RegStore) (keywords : Str) : List SearchResult :=
  let normalized_keywords := normalize_string keywords
  let results := searchPass normalized_keywords store []
  results.mergeSort rankLE

/-! ### Startup loading (`RegulationStore._load_regulations`) -/

/-- What the JSON text of a regulation file parses to, distinguished exactly
as far as `_load_regulations` behaves differently. `json.load` can return
any JSON value, and the loop's `except` clause catches only
`json.JSONDecodeError` and `KeyError`:

* `malformed` — the text is not valid JSON: `json.JSONDecodeError`, caught,
  diagnostic printed, file skipped;
* `record data` — a JSON object whose `"id"` value, when the key is
  present, is a string (`data.id`); loaded (or skipped silently when the
  key is absent). The remaining payload is `data`'s other fields;
* `badIdRecord` — a JSON object whose `"id"` value is not a string
  (e.g. `{"id": 5}`): `normalize_string(data["id"])` raises an uncaught
  `AttributeError` and startup aborts;
* `textWithId` — a JSON string or array for which `"id" in data` is true
  (substring or element membership): `data["id"]` raises an uncaught
  `TypeError` and startup aborts;
* `textWithoutId` — a JSON string or array for which `"id" in data` is
  false: skipped silently;
* `scalar` — `null`, a number or a boolean: `"id" in data` itself raises
  an uncaught `TypeError` and startup aborts. -/
inductive FileContent
  | malformed
  | record (data : Regulation)
  | badIdRecord
  | textWithId
  | textWithoutId
  | scalar
deriving DecidableEq, Repr

/-- One file encountered by the directory walk: its file name and what its
contents parse to. -/
structure RegFile where
  fname : Str
  content : FileContent
deriving DecidableEq, Repr

/-- How `RegulationStore.__init__` can abort: the missing data root raises
`FileNotFoundError`, and the two uncaught per-file exceptions propagate out
of the loading loop. -/
inductive LoadError
  | dirNotFound
  | typeErrorAbort (fname : Str)
  | attributeErrorAbort (fname : Str)
deriving DecidableEq, Repr

/-- The state produced by loading: the identifier map plus the diagnostics
printed for skipped files. -/
structure LoadOutcome where
  store : RegStore
  warnings : List Str
deriving DecidableEq, Repr

/-- `f"Warning: Skipping invalid regulation file {file_path}"` (the exception
text appended after the path is not modelled). -/
def warnMsg (fname : Str) : Str :=
  "Warning: Skipping invalid regulation file ".data ++ fname

/-- Whether the walk considers a file: `file.endswith(".json") and
file != "regions.json"`. -/
def isRegulationFile (fname : Str) : Bool :=
  ".json".data.isSuffixOf fname && fname ≠ "regions.json".data

/-- The per-file body of the loading loop: decode failures are skipped with
a diagnostic, records without an `id` are skipped silently, well-formed
records are inserted under their normalized id (overwriting), and the
parseable-but-malformed shapes raise uncaught exceptions that abort the
whole load. -/
def loadStep (acc : RegStore × List Str) (f : RegFile) :
    Except LoadError (RegStore × List Str) :=
  if isRegulationFile f.fname = true then
    match f.content with
    | .malformed => .ok (acc.1, acc.2 ++ [warnMsg f.fname])
    | .record data =>
        match data.id with
        | none => .ok acc
        | some i => .ok (dictInsert (normalize_string i) data acc.1, acc.2)
    | .badIdRecord => .error (.attributeErrorAbort f.fname)
    | .textWithId => .error (.typeErrorAbort f.fname)
    | .textWithoutId => .ok acc
    | .scalar => .error (.typeErrorAbort f.fname)
  else .ok acc

/-- The walk loop: an uncaught exception from `loadStep` propagates,
abandoning the rest of the files. -/
def loadFold : RegStore × List Str → List RegFile → Except LoadError (RegStore × List Str)
  | acc, [] => .ok acc
  | acc, f :: rest =>
      match loadStep acc f with
      | .error e => .error e
      | .ok acc₂ => loadFold acc₂ rest

/-- `RegulationStore._load_regulations`: raises `FileNotFoundError` when the
root directory does not exist, otherwise walks the file list through
`loadStep`, propagating any uncaught per-file exception. -/
def load_regulations (rootExists : Bool) (files : List RegFile) :
    Except LoadError LoadOutcome :=
  if rootExists then
    match loadFold ([], []) files with
    | .error e => .error e
    | .ok acc => .ok { store := acc.1, warnings := acc.2 }
  else .error .dirNotFound

/-! ### Region store (`RegionStore.get_region`) -/

/-- A region record from the manifest: the `regulations` field holds the raw
list of regulation-id strings, `payload` holds every other key-value pair of
the dict (opaque to the store, spread unchanged by `{**region, ...}`). -/
structure Region where
  payload : List (Str × Str)
  regulations : List Str
deriving DecidableEq, Repr

/-- The dict returned by `get_region`: the same payload with `regulations`
replaced by resolved regulation records. -/
structure RegionOut where
  payload : List (Str × Str)
  regulations : List Regulation
deriving DecidableEq, Repr

/-- The files reachable by the fallback read
`self.data_dir / normalized_id / f"{reg_id}.json"`: a map from
(subdirectory, regulation id) to the file's parse outcome, where `some none`
is a file that exists but fails to load and `none` is a missing file. -/
abbrev FallbackFS := List ((Str × Str) × Option Regulation)

/-- The `RegionStore` state: the region map, the optional regulation store
bound at construction, and the data directory contents for fallback reads. -/
structure RegionStore where
  regions : List (Str × Region)
  regulation_store : Option RegStore
  fallback_files : FallbackFS
deriving Repr

/-- The aggregation loop of `get_region`: resolve each referenced id through
the regulation store, falling back to the region-subdirectory file; ids found
in neither place (or whose fallback file fails to load) are dropped. -/
def aggregate (store : RegStore) (fs : FallbackFS) (nid : Str) :
    List Str → List Regulation
  | [] => []
  | reg_id :: rest =>
      match get_regulation store reg_id with
      | some regulation => regulation :: aggregate store fs nid rest
      | none =>
          match dictGet (nid, reg_id) fs with
          | some (some data) => data :: aggregate store fs nid rest
          | some none => aggregate store fs nid rest
          | none => aggregate store fs nid rest

/-- `RegionStore.get_region`: normalized lookup, then either an empty
`regulations` list (no store available) or the aggregated list. The Python
`regulation_store or self.regulation_store` is `Option.orElse` (a
`RegulationStore` instance is always truthy). -/
def RegionStore.get_region (rs : RegionStore) (region_id : Str)
    (regulation_store : Option RegStore) : Option RegionOut :=
  let normalized_id := normalize_string region_id
  match dictGet normalized_id rs.regions with
  | none => none
  | some region =>
      match regulation_store.orElse (fun _ => rs.regulation_store) with
      | none => some { payload := region.payload, regulations := [] }
      | some store =>
          some { payload := region.payload,
                 regulations := aggregate store rs.fallback_files normalized_id
                   region.regulations }

/-! ### Query façade (`server/main.py` tool functions) -/

/-- The application context handed to each tool call. -/
structure AppContext where
  regulation_store : RegStore
  region_store : RegionStore

/-- The response shape of the façade's `get_regulation`: the full record, or
an `{"error": ...}` dict. Faults are never thrown: the function is total. -/
inductive RegResponse
  | record (r : Regulation)
  | error (msg : Str)
deriving DecidableEq, Repr

/-- The response shape of the façade's `get_region`. -/
inductive RegionResponse
  | record (r : RegionOut)
  | error (msg : Str)
deriving DecidableEq, Repr

/-- One element of the façade's `search_regulations` response: a search
result dict or the `{"message": ...}` no-results dict. -/
inductive SearchItem
  | result (r : SearchResult)
  | message (msg : Str)
deriving DecidableEq, Repr

def regNotFoundMsg (regulation_id : Str) : Str :=
  "Regulation \u0027".data ++ regulation_id
    ++ "\u0027 not found. Please check the regulation ID and try again.".data

def regionNotFoundMsg (region_id : Str) : Str :=
  "Region \u0027".data ++ region_id
    ++ "\u0027 not found. Please check the region ID and try again.".data

def noResultsMsg (keywords : Str) : Str :=
  "No regulations found matching \u0027".data ++ keywords
    ++ "\u0027. Try different keywords or check spelling.".data

/-- The `get_regulation` tool. -/
def facade_get_regulation (ctx : AppContext) (regulation_id : Str) : RegResponse :=
  match get_regulation ctx.regulation_store regulation_id with
  | none => .error (regNotFoundMsg regulation_id)
  | some regulation => .record regulation

/-- The `get_region` tool (it always passes the context's regulation store). -/
def facade_get_region (ctx : AppContext) (region_id : Str) : RegionResponse :=
  match ctx.region_store.get_region region_id (some ctx.regulation_store) with
  | none => .error (regionNotFoundMsg region_id)
  | some region => .record region

/-- The `search_regulations` tool: an empty store result is surfaced as a
one-element message list. -/
def facade_search_regulations (ctx : AppContext) (keywords : Str) :
    List SearchItem :=
  let results := search_regulations ctx.regulation_store keywords
  if results = [] then [.message (noResultsMsg keywords)]
  else results.map .result

/-! ### Spec-side definitions

Written from the specification's words, independently of the loop structure
of the code, so that the claim theorems relate the two. -/

/-- One searchable field of a record: its match type, its original-case text,
and the tag prepended to its snippet (empty except for article fields). -/
structure FieldRef where
  ftype : Str
  text : Str
  tag : Str
deriving DecidableEq, Repr

/-- The searched fields of a record, in the spec's fixed check order: name,
summary, each article (title before that article's summary, articles in
stored order), each developer-guidance string in stored order. -/
def orderedFields (reg : Regulation) : List FieldRef :=
  [{ ftype := mtName, text := reg.name, tag := [] },
   { ftype := mtSummary, text := reg.summary, tag := [] }]
  ++ reg.articles.flatMap (fun a =>
      [{ ftype := mtArticleTitle, text := a.title, tag := articleTag a },
       { ftype := mtArticleSummary, text := a.summary, tag := articleTag a }])
  ++ reg.developer_guidance.map (fun g =>
      { ftype := mtGuidance, text := g, tag := [] })

/-- A field matches when the (already normalized) keyword string occurs as a
substring of the field's normalized text. -/
def isMatch (kw : Str) (f : FieldRef) : Bool := strIn kw (normalize_string f.text)

/-- The snippet belonging to one field: summary-like fields get a context
window via `extract_snippet`, the other fields keep their full text; article
fields are prefixed with their tag. -/
def fieldSnippet (kw : Str) (f : FieldRef) : Str :=
  f.tag ++ (if f.ftype = mtSummary ∨ f.ftype = mtArticleSummary then
    extract_snippet f.text kw 100 else f.text)

/-- The per-record body of the search loop as a single function: `none` when
the record has no matching field, otherwise the result dict built from the
primary (= first) match and the total match count. -/
def searchOne (kw : Str) (p : Str × Regulation) : Option SearchResult :=
  match regMatches kw p.2 with
  | [] => none
  | (t, s) :: ms =>
      some { id := p.1, name := p.2.name, snippet := s, match_type := t,
             all_matches := ms.length + 1 }

/-- The spec's notion of a matching record: the normalized keyword is a
substring (`List.IsInfix`) of the normalization of at least one of the five
searched fields. -/
def recordMatches (nkw : Str) (reg : Regulation) : Prop :=
  nkw <:+: normalize_string reg.name
  ∨ nkw <:+: normalize_string reg.summary
  ∨ (∃ a ∈ reg.articles,
      nkw <:+: normalize_string a.title ∨ nkw <:+: normalize_string a.summary)
  ∨ (∃ g ∈ reg.developer_guidance, nkw <:+: normalize_string g)

/-- The snippet-window construction stated from the spec's words, with the
occurrence located in the NORMALIZED field text (the amended form of the
claim): up to 100 characters of context on each side, clipped, with `...`
markers when the window starts or ends mid-text, falling back to the first
200 characters when the keyword does not occur. `kw` is the already
normalized keyword string. -/
def snippetSpec (text kw : Str) : Str :=
  match pyFind (normalize_string text) kw with
  | none => text.take 200
  | some idx =>
      (if 0 < idx - 100 then "...".data else [])
      ++ ((text.drop (idx - 100)).take
            (min text.length (idx + kw.length + 100) - (idx - 100)))
      ++ (if min text.length (idx + kw.length + 100) < text.length then
            "...".data else [])

/-- The snippet-window construction exactly as the claim states it: the
occurrence of the normalized keyword located in the ORIGINAL-CASE field
text. Used to refute the claim as stated. -/
def snippetSpecClaim (text kw : Str) : Str :=
  match pyFind text kw with
  | none => text.take 200
  | some idx =>
      (if 0 < idx - 100 then "...".data else [])
      ++ ((text.drop (idx - 100)).take
            (min text.length (idx + kw.length + 100) - (idx - 100)))
      ++ (if min text.length (idx + kw.length + 100) < text.length then
            "...".data else [])

/-- The claim's priority classes for result ordering. -/
def specPriority (t : Str) : Nat :=
  if t = mtName then 0
  else if t = mtSummary then 1
  else if t = mtArticleTitle ∨ t = mtArticleSummary then 2
  else 3

/-- The five possible `match_type` values. -/
def matchTypes : List Str := [mtName, mtSummary, mtArticleTitle, mtArticleSummary, mtGuidance]

/-- Per-reference resolution in region aggregation, stated from the spec's
words: the store lookup wins; on a store miss the fallback file's parsed
content is used when it exists and parses; otherwise the entry is dropped. -/
def resolveRef (store : RegStore) (fs : FallbackFS) (nid : Str) (reg_id : Str) :
    Option Regulation :=
  (get_regulation store reg_id).orElse (fun _ => Option.join (dictGet (nid, reg_id) fs))

/-! ### Concrete example data for witnesses and counterexamples -/

def exArticle : Article :=
  { art := some ("5".data), title := "Data minimization".data,
    summary := "Collect only the data that is necessary".data }

def exReg : Regulation :=
  { id := some ("gdpr".data), name := "General Data Protection Regulation".data,
    summary := "GDPR is a data protection regulation".data,
    articles := [exArticle], developer_guidance := ["Use encryption at rest".data] }

def exStore : RegStore := [("gdpr".data, exReg)]

def doraReg : Regulation :=
  { id := some ("dora".data), name := "Digital Operational Resilience Act".data,
    summary := [], articles := [], developer_guidance := [] }

def exRegion : Region :=
  { payload := [("id".data, "eu".data), ("name".data, "European Union".data)],
    regulations := ["gdpr".data, "dora".data, "missing".data] }

def exFallback : FallbackFS := [((("eu".data), ("dora".data)), some doraReg)]

def exRegionStore : RegionStore :=
  { regions := [("eu".data, exRegion)], regulation_store := some exStore,
    fallback_files := exFallback }

def exCtx : AppContext :=
  { regulation_store := exStore, region_store := exRegionStore }

/-- A long developer-guidance text: the keyword occurs at its start and the
text is far longer than any context window. -/
def cexGuidance : Str := "control ".data ++ List.replicate 220 'x'

def cexReg : Regulation :=
  { id := some ("g1".data), name := "G1".data, summary := [], articles := [],
    developer_guidance := [cexGuidance] }

def cexStore : RegStore := [("g1".data, cexReg)]

/-- A long summary whose only keyword occurrence is upper-case, so a
case-sensitive search of the original text misses it. -/
def cexSummary : Str := "GDPR ".data ++ List.replicate 216 'a'

def cexReg2 : Regulation :=
  { id := some ("g2".data), name := "G2".data, summary := cexSummary,
    articles := [], developer_guidance := [] }

def cexStore2 : RegStore := [("g2".data, cexReg2)]

/-- A concrete search call used by witnesses. -/
def exKw : Str := "data protection".data

/-- The (unique) result of `search_regulations exStore exKw`: the name field
matches first, and the summary also matches, so `all_matches = 2`. -/
def exResult : SearchResult :=
  { id := "gdpr".data, name := "General Data Protection Regulation".data,
    snippet := "General Data Protection Regulation".data,
    match_type := mtName, all_matches := 2 }

/-- A keyword whose only match in `exStore` is the record's summary. -/
def exKw2 : Str := "is a data".data

/-- The result of `search_regulations exStore exKw2`: a summary primary
match whose snippet is the (short, unelided) context window. -/
def exResult2 : SearchResult :=
  { id := "gdpr".data, name := "General Data Protection Regulation".data,
    snippet := "GDPR is a data protection regulation".data,
    match_type := mtSummary, all_matches := 1 }

/-- The aggregated output for region `eu`: `gdpr` resolves from the store,
`dora` from the fallback file, `missing` is dropped. -/
def exRegionOut : RegionOut :=
  { payload := exRegion.payload, regulations := [exReg, doraReg] }

/-- A well-formed regulation file. -/
def exGoodFile : RegFile := { fname := "gdpr.json".data, content := .record exReg }

/-- A file whose text fails to parse as JSON. -/
def exBadFile : RegFile := { fname := "bad.json".data, content := .malformed }

/-- A file parsing to a record without an `"id"` key. -/
def exNoIdFile : RegFile :=
  { fname := "noid.json".data, content := .record { exReg with id := none } }

/-- A file containing the JSON literal `null` (or any number/boolean). -/
def exScalarFile : RegFile := { fname := "null.json".data, content := .scalar }

/-- A file containing a JSON object with a non-string id, e.g. `{"id": 5}`. -/
def exBadIdFile : RegFile := { fname := "badid.json".data, content := .badIdRecord }

/-- A file containing a JSON string or array with an `"id"` occurrence,
e.g. `"an id inside a string"`. -/
def exTextIdFile : RegFile := { fname := "text.json".data, content := .textWithId }

/-! ## Theorems -/

/-! ### The substring-containment bridge: Python `in` is `List.IsInfix` -/

theorem infix_iff_exists_drop {n h : Str} :
    n <:+: h ↔ ∃ i, i ≤ h.length ∧ n <+: h.drop i := by
  constructor
  · rintro ⟨s, t, rfl⟩
    refine ⟨s.length, by simp, ?_⟩
    rw [List.append_assoc, List.drop_left]
    exact ⟨t, rfl⟩
  · rintro ⟨i, hi, u, hu⟩
    refine ⟨h.take i, u, ?_⟩
    rw [List.append_assoc, hu, List.take_append_drop]

theorem strIn_iff {n h : Str} : strIn n h = true ↔ n <:+: h := by
  unfold strIn pyFind
  simp only [List.find?_isSome, List.mem_range, List.isPrefixOf_iff_prefix]
  rw [infix_iff_exists_drop]
  constructor
  · rintro ⟨i, hlt, hp⟩
    exact ⟨i, by omega, hp⟩
  · rintro ⟨i, hle, hp⟩
    exact ⟨i, by omega, hp⟩

theorem filter_head?_eq_find? (p : α → Bool) (l : List α) :
    (l.filter p).head? = l.find? p := by
  induction l with
  | nil => rfl
  | cons a l ih =>
      by_cases h : p a = true
      · simp [List.filter_cons, h, List.find?_cons_of_pos]
      · simp only [Bool.not_eq_true] at h
        simp [List.filter_cons, h, List.find?_cons_of_neg, ih]

/-! ### The per-record match list, related to the spec's ordered field list -/

theorem fieldSnippet_name (kw t tag : Str) :
    fieldSnippet kw { ftype := mtName, text := t, tag := tag } = tag ++ t := by
  simp +decide [fieldSnippet]

theorem fieldSnippet_summary (kw t tag : Str) :
    fieldSnippet kw { ftype := mtSummary, text := t, tag := tag }
      = tag ++ extract_snippet t kw 100 := by
  unfold fieldSnippet
  rw [if_pos (Or.inl rfl)]

theorem fieldSnippet_article_title (kw t tag : Str) :
    fieldSnippet kw { ftype := mtArticleTitle, text := t, tag := tag } = tag ++ t := by
  simp +decide [fieldSnippet]

theorem fieldSnippet_article_summary (kw t tag : Str) :
    fieldSnippet kw { ftype := mtArticleSummary, text := t, tag := tag }
      = tag ++ extract_snippet t kw 100 := by
  unfold fieldSnippet
  rw [if_pos (Or.inr rfl)]

theorem fieldSnippet_guidance (kw t tag : Str) :
    fieldSnippet kw { ftype := mtGuidance, text := t, tag := tag } = tag ++ t := by
  simp +decide [fieldSnippet]

theorem articleMatches_eq (kw : Str) (a : Article) :
    articleMatches kw a
      = (([{ ftype := mtArticleTitle, text := a.title, tag := articleTag a },
           { ftype := mtArticleSummary, text := a.summary, tag := articleTag a }]
            : List FieldRef).filter (isMatch kw)).map
          (fun f => (f.ftype, fieldSnippet kw f)) := by
  unfold articleMatches
  cases h1 : strIn kw (normalize_string a.title) <;>
  cases h2 : strIn kw (normalize_string a.summary) <;>
    simp [isMatch, h1, h2, List.filter_cons, fieldSnippet_article_title,
      fieldSnippet_article_summary]

theorem flatMap_articleMatches_eq (kw : Str) (as : List Article) :
    as.flatMap (articleMatches kw)
      = ((as.flatMap (fun a =>
          [{ ftype := mtArticleTitle, text := a.title, tag := articleTag a },
           { ftype := mtArticleSummary, text := a.summary, tag := articleTag a }])).filter
            (isMatch kw)).map (fun f => (f.ftype, fieldSnippet kw f)) := by
  induction as with
  | nil => rfl
  | cons a as ih =>
      simp only [List.flatMap_cons, List.filter_append, List.map_append, ih,
        articleMatches_eq]

theorem guidanceMatches_eq (kw : Str) (gs : List Str) :
    gs.filterMap (fun g =>
        if strIn kw (normalize_string g) = true then some (mtGuidance, g) else none)
      = ((gs.map (fun g => ({ ftype := mtGuidance, text := g, tag := [] } : FieldRef))).filter
          (isMatch kw)).map (fun f => (f.ftype, fieldSnippet kw f)) := by
  induction gs with
  | nil => rfl
  | cons g gs ih =>
      cases h : strIn kw (normalize_string g) <;>
        simp [List.filterMap_cons, h, isMatch, List.filter_cons, ih,
          fieldSnippet_guidance]

/-- The central refinement lemma: the `matches` list the code builds for a
record is exactly the spec's ordered field list, filtered to the matching
fields, rendered as `(match_type, snippet)` pairs. -/
theorem regMatches_eq (kw : Str) (reg : Regulation) :
    regMatches kw reg
      = ((orderedFields reg).filter (isMatch kw)).map
          (fun f => (f.ftype, fieldSnippet kw f)) := by
  unfold regMatches orderedFields
  rw [guidanceMatches_eq, flatMap_articleMatches_eq]
  rw [List.filter_append, List.filter_append, List.map_append, List.map_append]
  cases h1 : strIn kw (normalize_string reg.name) <;>
  cases h2 : strIn kw (normalize_string reg.summary) <;>
    simp [isMatch, h1, h2, List.filter_cons, fieldSnippet_name,
      fieldSnippet_summary, List.append_assoc]

theorem orderedFields_ftype_mem {reg : Regulation} {f : FieldRef}
    (h : f ∈ orderedFields reg) : f.ftype ∈ matchTypes := by
  unfold orderedFields at h
  rcases List.mem_append.mp h with h1 | hg
  · rcases List.mem_append.mp h1 with h2 | ha
    · rcases List.mem_cons.mp h2 with rfl | h3
      · simp [matchTypes]
      · rcases List.mem_cons.mp h3 with rfl | h4
        · simp [matchTypes]
        · cases h4
    · rcases List.mem_flatMap.mp ha with ⟨a, _, hf⟩
      rcases List.mem_cons.mp hf with rfl | h5
      · simp [matchTypes]
      · rcases List.mem_cons.mp h5 with rfl | h6
        · simp [matchTypes]
        · cases h6
  · rcases List.mem_map.mp hg with ⟨g, _, rfl⟩
    simp [matchTypes]

theorem recordMatches_iff_exists_field (nkw : Str) (reg : Regulation) :
    recordMatches nkw reg ↔ ∃ f ∈ orderedFields reg, isMatch nkw f = true := by
  unfold recordMatches
  constructor
  · rintro (h | h | ⟨a, ha, h | h⟩ | ⟨g, hg, h⟩)
    · refine ⟨{ ftype := mtName, text := reg.name, tag := [] },
        by simp [orderedFields], by simpa [isMatch] using strIn_iff.mpr h⟩
    · refine ⟨{ ftype := mtSummary, text := reg.summary, tag := [] },
        by simp [orderedFields], by simpa [isMatch] using strIn_iff.mpr h⟩
    · refine ⟨{ ftype := mtArticleTitle, text := a.title, tag := articleTag a },
        ?_, by simpa [isMatch] using strIn_iff.mpr h⟩
      unfold orderedFields
      refine List.mem_append.mpr (Or.inl (List.mem_append.mpr (Or.inr ?_)))
      exact List.mem_flatMap.mpr ⟨a, ha, by simp⟩
    · refine ⟨{ ftype := mtArticleSummary, text := a.summary, tag := articleTag a },
        ?_, by simpa [isMatch] using strIn_iff.mpr h⟩
      unfold orderedFields
      refine List.mem_append.mpr (Or.inl (List.mem_append.mpr (Or.inr ?_)))
      exact List.mem_flatMap.mpr ⟨a, ha, by simp⟩
    · refine ⟨{ ftype := mtGuidance, text := g, tag := [] },
        ?_, by simpa [isMatch] using strIn_iff.mpr h⟩
      unfold orderedFields
      exact List.mem_append.mpr (Or.inr (List.mem_map.mpr ⟨g, hg, rfl⟩))
  · rintro ⟨f, hf, hm⟩
    rw [isMatch, strIn_iff] at hm
    unfold orderedFields at hf
    rcases List.mem_append.mp hf with h1 | hg
    · rcases List.mem_append.mp h1 with h2 | ha
      · rcases List.mem_cons.mp h2 with rfl | h3
        · exact Or.inl hm
        · rcases List.mem_cons.mp h3 with rfl | h4
          · exact Or.inr (Or.inl hm)
          · cases h4
      · rcases List.mem_flatMap.mp ha with ⟨a, haa, hf2⟩
        rcases List.mem_cons.mp hf2 with rfl | h5
        · exact Or.inr (Or.inr (Or.inl ⟨a, haa, Or.inl hm⟩))
        · rcases List.mem_cons.mp h5 with rfl | h6
          · exact Or.inr (Or.inr (Or.inl ⟨a, haa, Or.inr hm⟩))
          · cases h6
    · rcases List.mem_map.mp hg with ⟨g, hgg, rfl⟩
      exact Or.inr (Or.inr (Or.inr ⟨g, hgg, hm⟩))

theorem recordMatches_iff_regMatches_ne_nil (nkw : Str) (reg : Regulation) :
    recordMatches nkw reg ↔ regMatches nkw reg ≠ [] := by
  rw [recordMatches_iff_exists_field, regMatches_eq]
  simp only [ne_eq, List.map_eq_nil_iff, List.filter_eq_nil_iff, not_forall]
  constructor
  · rintro ⟨f, hf, hm⟩
    exact ⟨f, hf, by simp [hm]⟩
  · rintro ⟨f, hf, hm⟩
    exact ⟨f, hf, by simpa using hm⟩

theorem searchOne_eq_none_iff {kw : Str} {p : Str × Regulation} :
    searchOne kw p = none ↔ regMatches kw p.2 = [] := by
  unfold searchOne
  cases hm : regMatches kw p.2 <;> simp_all

theorem searchOne_some_spec {kw : Str} {p : Str × Regulation} {r : SearchResult}
    (h : searchOne kw p = some r) :
    r.id = p.1 ∧ r.name = p.2.name ∧
    (∃ f, (orderedFields p.2).find? (isMatch kw) = some f ∧
      r.match_type = f.ftype ∧ r.snippet = fieldSnippet kw f) ∧
    r.all_matches = ((orderedFields p.2).filter (isMatch kw)).length := by
  unfold searchOne at h
  cases hm : regMatches kw p.2 with
  | nil => rw [hm] at h; cases h
  | cons ts ms =>
      rw [hm] at h
      obtain ⟨t, s⟩ := ts
      cases h
      have hfm := regMatches_eq kw p.2
      rw [hm] at hfm
      have hh : (((orderedFields p.2).filter (isMatch kw)).map
          (fun f => (f.ftype, fieldSnippet kw f))).head? = some (t, s) := by
        rw [← hfm]; rfl
      rw [List.head?_map, filter_head?_eq_find?] at hh
      cases hfind : (orderedFields p.2).find? (isMatch kw) with
      | none => rw [hfind] at hh; cases hh
      | some f =>
          rw [hfind] at hh
          simp only [Option.map_some', Option.some.injEq, Prod.mk.injEq] at hh
          refine ⟨rfl, rfl, ⟨f, rfl, hh.1.symm, hh.2.symm⟩, ?_⟩
          have hlen := congrArg List.length hfm
          simp only [List.length_cons, List.length_map] at hlen
          simpa using hlen

theorem searchPass_eq_filterMap (kw : Str) :
    ∀ (l : RegStore) (seen : List Str),
      (l.map Prod.fst).Nodup → (∀ p ∈ l, p.1 ∉ seen) →
      searchPass kw l seen = l.filterMap (searchOne kw) := by
  intro l
  induction l with
  | nil => intro seen _ _; rfl
  | cons p rest ih =>
      intro seen hnd hseen
      obtain ⟨reg_id, reg⟩ := p
      have hid : reg_id ∉ seen := hseen (reg_id, reg) (List.mem_cons_self _ _)
      have hnd₂ : (rest.map Prod.fst).Nodup := (List.nodup_cons.mp hnd).2
      have hhd : reg_id ∉ rest.map Prod.fst := (List.nodup_cons.mp hnd).1
      cases hm : regMatches kw reg with
      | nil =>
          have hso : searchOne kw (reg_id, reg) = none :=
            searchOne_eq_none_iff.mpr hm
          simp only [searchPass, if_neg hid, hm, List.filterMap_cons, hso]
          exact ih seen hnd₂ (fun q hq => hseen q (List.mem_cons_of_mem _ hq))
      | cons ts ms =>
          obtain ⟨t, s⟩ := ts
          have hso : searchOne kw (reg_id, reg)
              = some { id := reg_id, name := reg.name, snippet := s,
                       match_type := t, all_matches := ms.length + 1 } := by
            unfold searchOne; rw [hm]
          simp only [searchPass, if_neg hid, hm, List.filterMap_cons, hso]
          refine congrArg _ (ih (reg_id :: seen) hnd₂ ?_)
          intro q hq
          simp only [List.mem_cons, not_or]
          refine ⟨?_, hseen q (List.mem_cons_of_mem _ hq)⟩
          intro hqe
          exact hhd (hqe ▸ List.mem_map_of_mem Prod.fst hq)

theorem searchPass_ids_sublist (kw : Str) :
    ∀ (l : RegStore) (seen : List Str),
      List.Sublist ((searchPass kw l seen).map SearchResult.id) (l.map Prod.fst) := by
  intro l
  induction l with
  | nil => intro seen; simp [searchPass]
  | cons p rest ih =>
      intro seen
      obtain ⟨reg_id, reg⟩ := p
      by_cases hid : reg_id ∈ seen
      · simp only [searchPass, if_pos hid, List.map_cons]
        exact (ih seen).trans (List.sublist_cons_self _ _)
      · cases hm : regMatches kw reg with
        | nil =>
            simp only [searchPass, if_neg hid, hm, List.map_cons]
            exact (ih seen).trans (List.sublist_cons_self _ _)
        | cons ts ms =>
            obtain ⟨t, s⟩ := ts
            simp only [searchPass, if_neg hid, hm, List.map_cons]
            exact (ih (reg_id :: seen)).cons₂ reg_id

theorem searchPass_match_type_mem (kw : Str) :
    ∀ (l : RegStore) (seen : List Str) (r : SearchResult),
      r ∈ searchPass kw l seen → r.match_type ∈ matchTypes := by
  intro l
  induction l with
  | nil => intro seen r h; simp [searchPass] at h
  | cons p rest ih =>
      intro seen r h
      obtain ⟨reg_id, reg⟩ := p
      by_cases hid : reg_id ∈ seen
      · rw [searchPass, if_pos hid] at h
        exact ih seen r h
      · cases hm : regMatches kw reg with
        | nil =>
            rw [searchPass, if_neg hid, hm] at h
            exact ih seen r h
        | cons ts ms =>
            obtain ⟨t, s⟩ := ts
            rw [searchPass, if_neg hid, hm] at h
            rcases List.mem_cons.mp h with rfl | h₂
            · have hfm := regMatches_eq kw reg
              rw [hm] at hfm
              have hmem : (t, s) ∈ ((orderedFields reg).filter (isMatch kw)).map
                  (fun f => (f.ftype, fieldSnippet kw f)) := by
                rw [← hfm]; exact List.mem_cons_self _ _
              rcases List.mem_map.mp hmem with ⟨f, hf, hfe⟩
              have ht : f.ftype = t := by
                simpa using congrArg Prod.fst hfe
              have hin := orderedFields_ftype_mem (List.mem_of_mem_filter hf)
              rw [ht] at hin
              simpa using hin
            · exact ih (reg_id :: seen) r h₂

/-! ### The stable sort -/

theorem rankLE_trans' : ∀ (a b c : SearchResult), rankLE a b → rankLE b c → rankLE a c := by
  intro a b c
  simp only [rankLE, decide_eq_true_eq]
  omega

theorem rankLE_total' : ∀ (a b : SearchResult), rankLE a b || rankLE b a := by
  intro a b
  simp only [rankLE, Bool.or_eq_true, decide_eq_true_eq]
  omega

/-- Stability of the sort: a filter that selects only results of one rank
class passes through `mergeSort` unchanged. -/
theorem mergeSort_rankLE_filter (l : List SearchResult) (p : SearchResult → Bool)
    (hp : ∀ a b, p a = true → p b = true → rankLE a b = true) :
    (l.mergeSort rankLE).filter p = l.filter p := by
  have hpw : (l.filter p).Pairwise (fun a b => rankLE a b = true) :=
    List.pairwise_of_forall_mem_list fun a ha b hb =>
      hp a b (List.of_mem_filter ha) (List.of_mem_filter hb)
  have h1 : List.Sublist (l.filter p) (l.mergeSort rankLE) :=
    List.sublist_mergeSort rankLE_trans' rankLE_total' hpw (List.filter_sublist l)
  have h2 : List.Sublist (l.filter p) ((l.mergeSort rankLE).filter p) := by
    have h3 := h1.filter p
    rw [List.filter_filter] at h3
    simpa [Bool.and_self] using h3
  have hperm : ((l.mergeSort rankLE).filter p).Perm (l.filter p) :=
    (List.mergeSort_perm l rankLE).filter p
  exact (h2.eq_of_length hperm.length_eq.symm).symm

theorem search_regulations_unfold (store : RegStore) (kw : Str) :
    search_regulations store kw
      = (searchPass (normalize_string kw) store []).mergeSort rankLE := rfl

theorem search_regulations_eq_filterMap (store : RegStore) (kw : Str)
    (hnd : (store.map Prod.fst).Nodup) :
    search_regulations store kw
      = (store.filterMap (searchOne (normalize_string kw))).mergeSort rankLE := by
  rw [search_regulations_unfold, searchPass_eq_filterMap _ _ _ hnd (by simp)]

theorem search_regulations_eq_of_sorted (store : RegStore) (kw : Str)
    (h : (searchPass (normalize_string kw) store []).Pairwise
      (fun a b => rankLE a b = true)) :
    search_regulations store kw = searchPass (normalize_string kw) store [] := by
  rw [search_regulations_unfold]
  exact List.mergeSort_of_sorted h

theorem exSearch_eval : search_regulations exStore exKw = [exResult] := by
  rw [search_regulations_eq_of_sorted exStore exKw (by decide)]
  decide

theorem filterMap_searchOne_ids_sublist (kw : Str) (store : RegStore) :
    List.Sublist ((store.filterMap (searchOne kw)).map SearchResult.id)
      (store.map Prod.fst) := by
  induction store with
  | nil => simp
  | cons p rest ih =>
      rw [List.filterMap_cons]
      cases hso : searchOne kw p with
      | none =>
          rw [List.map_cons]
          exact ih.trans (List.sublist_cons_self _ _)
      | some r =>
          rw [List.map_cons, List.map_cons, (searchOne_some_spec hso).1]
          exact ih.cons₂ p.1

/-! ### Claim theorems for the search operation -/

/-- C1: `search_regulations(kw)` returns exactly the records for which the
normalized keyword is a substring of the normalization of at least one of
the five searched fields; a returned result always has a matching field,
every matching record is returned, and no record produces more than one
result (the key list of a Python dict is `Nodup`). -/
theorem claim_C1_search_exact_set (store : RegStore) (kw : Str)
    (hnd : (store.map Prod.fst).Nodup) :
    (∀ r ∈ search_regulations store kw,
      ∃ p ∈ store, r.id = p.1 ∧ recordMatches (normalize_string kw) p.2)
    ∧ (∀ p ∈ store, recordMatches (normalize_string kw) p.2 →
        ∃ r ∈ search_regulations store kw, r.id = p.1)
    ∧ ((search_regulations store kw).map SearchResult.id).Nodup := by
  rw [search_regulations_eq_filterMap store kw hnd]
  refine ⟨?_, ?_, ?_⟩
  · intro r hr
    rcases List.mem_filterMap.mp (List.mem_mergeSort.mp hr) with ⟨p, hp, hso⟩
    refine ⟨p, hp, (searchOne_some_spec hso).1, ?_⟩
    rw [recordMatches_iff_regMatches_ne_nil]
    intro hnil
    rw [searchOne_eq_none_iff.mpr hnil] at hso
    cases hso
  · intro p hp hmatch
    rw [recordMatches_iff_regMatches_ne_nil] at hmatch
    cases hso : searchOne (normalize_string kw) p with
    | none => exact absurd (searchOne_eq_none_iff.mp hso) hmatch
    | some r =>
        exact ⟨r, List.mem_mergeSort.mpr (List.mem_filterMap.mpr ⟨p, hp, hso⟩),
          (searchOne_some_spec hso).1⟩
  · have hperm := (List.mergeSort_perm
      (store.filterMap (searchOne (normalize_string kw))) rankLE).map SearchResult.id
    rw [hperm.nodup_iff]
    exact (filterMap_searchOne_ids_sublist _ store).nodup hnd

/-- C1 witness: the exact-set property instantiated on a concrete store. -/
theorem claim_C1_witness :
    (exStore.map Prod.fst).Nodup ∧
    ((∀ r ∈ search_regulations exStore exKw,
      ∃ p ∈ exStore, r.id = p.1 ∧ recordMatches (normalize_string exKw) p.2)
    ∧ (∀ p ∈ exStore, recordMatches (normalize_string exKw) p.2 →
        ∃ r ∈ search_regulations exStore exKw, r.id = p.1)
    ∧ ((search_regulations exStore exKw).map SearchResult.id).Nodup) :=
  ⟨by decide, claim_C1_search_exact_set exStore exKw (by decide)⟩

/-- C2: each result's `match_type` and `snippet` come from the first
matching field in the fixed order (name, summary, per-article title then
summary, developer guidance), and `all_matches` counts exactly the matching
fields, an article contributing its title and summary independently. -/
theorem claim_C2_primary_match_and_count (store : RegStore) (kw : Str)
    (hnd : (store.map Prod.fst).Nodup) :
    ∀ r ∈ search_regulations store kw,
      ∃ p ∈ store, r.id = p.1 ∧
        (∃ f, (orderedFields p.2).find? (isMatch (normalize_string kw)) = some f ∧
          r.match_type = f.ftype ∧ r.snippet = fieldSnippet (normalize_string kw) f) ∧
        r.all_matches
          = ((orderedFields p.2).filter (isMatch (normalize_string kw))).length := by
  rw [search_regulations_eq_filterMap store kw hnd]
  intro r hr
  rcases List.mem_filterMap.mp (List.mem_mergeSort.mp hr) with ⟨p, hp, hso⟩
  obtain ⟨hid, _, hf, hlen⟩ := searchOne_some_spec hso
  exact ⟨p, hp, hid, hf, hlen⟩

/-- C2 witness: the primary-match rule instantiated on a concrete store. -/
theorem claim_C2_witness :
    (exStore.map Prod.fst).Nodup ∧ exResult ∈ search_regulations exStore exKw ∧
    (∃ p ∈ exStore, exResult.id = p.1 ∧
      (∃ f, (orderedFields p.2).find? (isMatch (normalize_string exKw)) = some f ∧
        exResult.match_type = f.ftype ∧
        exResult.snippet = fieldSnippet (normalize_string exKw) f) ∧
      exResult.all_matches
        = ((orderedFields p.2).filter (isMatch (normalize_string exKw))).length) :=
  ⟨by decide, by rw [exSearch_eval]; decide,
    claim_C2_primary_match_and_count exStore exKw (by decide) exResult
      (by rw [exSearch_eval]; decide)⟩

theorem rank_key_eq_specPriority {r : SearchResult} (h : r.match_type ∈ matchTypes) :
    rank_key r = specPriority r.match_type := by
  simp only [matchTypes, List.mem_cons, List.not_mem_nil, or_false] at h
  rcases h with h | h | h | h | h <;> simp +decide [rank_key, specPriority, h]

/-- C4: results come out sorted by the priority classes
name = 0, summary = 1, article_* = 2, developer_guidance = 3, and the sort
is stable: within one rank class the sorted output equals the unsorted
store-order pass, whose ids follow the store's iteration order. The search
is a pure function of the store and keywords, so repeated identical calls
agree definitionally. -/
theorem claim_C4_ranking_stable (store : RegStore) (kw : Str) :
    (search_regulations store kw).Pairwise
      (fun a b => specPriority a.match_type ≤ specPriority b.match_type)
    ∧ (∀ k, (search_regulations store kw).filter (fun r => rank_key r = k)
        = (searchPass (normalize_string kw) store []).filter (fun r => rank_key r = k))
    ∧ List.Sublist ((searchPass (normalize_string kw) store []).map SearchResult.id)
        (store.map Prod.fst) := by
  refine ⟨?_, ?_, searchPass_ids_sublist _ store []⟩
  · have hs := List.sorted_mergeSort rankLE_trans' rankLE_total'
      (searchPass (normalize_string kw) store [])
    have hmem : ∀ r ∈ search_regulations store kw, r.match_type ∈ matchTypes := by
      intro r hr
      exact searchPass_match_type_mem _ store [] r (List.mem_mergeSort.mp hr)
    refine (hs.imp_of_mem ?_)
    intro a b ha hb hab
    have ha' := rank_key_eq_specPriority (hmem a ha)
    have hb' := rank_key_eq_specPriority (hmem b hb)
    rw [← ha', ← hb']
    simpa [rankLE] using hab
  · intro k
    apply mergeSort_rankLE_filter
    intro a b hpa hpb
    simp only [decide_eq_true_eq] at hpa hpb
    simp [rankLE, hpa, hpb]

/-- C10: a keywords string that normalizes to the empty string matches every
record at its `name` field (the empty string is a substring of everything),
so every loaded record is returned exactly once, in store order, with
`match_type` `"name"`. -/
theorem claim_C10_empty_keywords (store : RegStore) (kw : Str)
    (hkw : normalize_string kw = []) (hnd : (store.map Prod.fst).Nodup) :
    (search_regulations store kw).map (fun r => (r.id, r.match_type))
      = store.map (fun p => (p.1, mtName)) := by
  have hin : ∀ hay : Str, strIn [] hay = true := fun hay =>
    strIn_iff.mpr List.nil_infix
  have hso : ∀ p : Str × Regulation, ∃ n : Nat,
      searchOne [] p = some ⟨p.1, p.2.name, p.2.name, mtName, n⟩ := by
    intro p
    unfold searchOne regMatches
    rw [if_pos (hin _)]
    exact ⟨_, rfl⟩
  have hmt : ∀ r ∈ store.filterMap (searchOne []), r.match_type = mtName := by
    intro r hr
    rcases List.mem_filterMap.mp hr with ⟨p, _, hsop⟩
    rcases hso p with ⟨n, hn⟩
    rw [hn] at hsop
    cases hsop
    rfl
  have hsorted : (store.filterMap (searchOne [])).Pairwise
      (fun a b => rankLE a b = true) := by
    refine List.pairwise_of_forall_mem_list ?_
    intro a ha b hb
    simp [rankLE, rank_key, hmt a ha, hmt b hb]
  have key : ∀ l : RegStore,
      (l.filterMap (searchOne [])).map (fun r => (r.id, r.match_type))
        = l.map (fun p => (p.1, mtName)) := by
    intro l
    induction l with
    | nil => rfl
    | cons p rest ih =>
        rcases hso p with ⟨n, hn⟩
        rw [List.filterMap_cons, hn, List.map_cons, List.map_cons]
        exact congrArg _ ih
  rw [search_regulations_eq_filterMap store kw hnd, hkw,
    List.mergeSort_of_sorted hsorted, key]

/-- C10 witness: whitespace-only keywords on a concrete store. -/
theorem claim_C10_witness :
    normalize_string ("  ".data) = [] ∧ (exStore.map Prod.fst).Nodup ∧
    (search_regulations exStore ("  ".data)).map (fun r => (r.id, r.match_type))
      = exStore.map (fun p => (p.1, mtName)) :=
  ⟨by decide, by decide, claim_C10_empty_keywords exStore _ (by decide) (by decide)⟩

/-! ### Idempotency of `normalize_string`

`strip` and `lower` commute and are each idempotent, so normalizing an
already-normalized keyword is the identity — this relates the code's
`_extract_snippet` (which re-normalizes its keyword argument) to the spec's
window construction stated directly over the normalized keyword. -/

theorem char_toNat_ofNat {n : Nat} (h : n < 55296) : (Char.ofNat n).toNat = n := by
  have hv : Nat.isValidChar n := Or.inl h
  rw [Char.ofNat, dif_pos hv]
  simp [Char.ofNatAux, Char.toNat, UInt32.ofNat', UInt32.toNat, BitVec.toNat_ofNatLt]

theorem char_toLower_toNat_of_upper {c : Char} (h1 : 65 ≤ c.toNat) (h2 : c.toNat ≤ 90) :
    (Char.toLower c).toNat = c.toNat + 32 := by
  unfold Char.toLower
  rw [if_pos ⟨h1, h2⟩]
  exact char_toNat_ofNat (by omega)

theorem char_toLower_of_not_upper {c : Char} (h : ¬(65 ≤ c.toNat ∧ c.toNat ≤ 90)) :
    Char.toLower c = c := by
  unfold Char.toLower
  rw [if_neg ?_]
  intro hc
  exact h ⟨hc.1, hc.2⟩

theorem char_toLower_toLower (c : Char) :
    Char.toLower (Char.toLower c) = Char.toLower c := by
  by_cases h : 65 ≤ c.toNat ∧ c.toNat ≤ 90
  · have hl := char_toLower_toNat_of_upper h.1 h.2
    apply char_toLower_of_not_upper
    omega
  · rw [char_toLower_of_not_upper h, char_toLower_of_not_upper h]

theorem char_eq_of_toNat {c d : Char} (h : c.toNat = d.toNat) : c = d :=
  Char.ext (UInt32.toNat.inj h)

theorem char_isWhitespace_toNat {c : Char} (h : c.isWhitespace = true) :
    c.toNat = 32 ∨ c.toNat = 9 ∨ c.toNat = 13 ∨ c.toNat = 10 := by
  unfold Char.isWhitespace at h
  simp only [Bool.or_eq_true, decide_eq_true_eq] at h
  rcases h with ((h | h) | h) | h <;> subst h <;> simp [Char.toNat]

theorem char_toLower_isWhitespace (c : Char) :
    (Char.toLower c).isWhitespace = c.isWhitespace := by
  by_cases h : 65 ≤ c.toNat ∧ c.toNat ≤ 90
  · have hl := char_toLower_toNat_of_upper h.1 h.2
    have h1 : (Char.toLower c).isWhitespace = false := by
      by_contra hc
      simp only [Bool.not_eq_false] at hc
      have := char_isWhitespace_toNat hc
      omega
    have h2 : c.isWhitespace = false := by
      by_contra hc
      simp only [Bool.not_eq_false] at hc
      have := char_isWhitespace_toNat hc
      omega
    rw [h1, h2]
  · rw [char_toLower_of_not_upper h]

theorem pyLower_pyLower (s : Str) : pyLower (pyLower s) = pyLower s := by
  unfold pyLower
  rw [List.map_map]
  exact List.map_congr_left fun c _ => char_toLower_toLower c

theorem isWhitespace_comp_toLower :
    (Char.isWhitespace ∘ Char.toLower) = Char.isWhitespace :=
  funext char_toLower_isWhitespace

theorem pyStrip_pyLower (s : Str) : pyStrip (pyLower s) = pyLower (pyStrip s) := by
  unfold pyStrip pyLower
  rw [List.dropWhile_map, isWhitespace_comp_toLower, ← List.map_reverse,
    List.dropWhile_map, isWhitespace_comp_toLower, ← List.map_reverse]

theorem dropWhile_idem (p : α → Bool) (l : List α) :
    (l.dropWhile p).dropWhile p = l.dropWhile p := by
  induction l with
  | nil => rfl
  | cons a l ih =>
      by_cases h : p a = true
      · rw [List.dropWhile_cons_of_pos h, ih]
      · rw [List.dropWhile_cons_of_neg (by simpa using h),
          List.dropWhile_cons_of_neg (by simpa using h)]

theorem dropWhile_exists_prefix (p : α → Bool) (l : List α) :
    ∃ t, t ++ l.dropWhile p = l := by
  induction l with
  | nil => exact ⟨[], rfl⟩
  | cons a l ih =>
      by_cases h : p a = true
      · rcases ih with ⟨t, ht⟩
        exact ⟨a :: t, by rw [List.dropWhile_cons_of_pos h, List.cons_append, ht]⟩
      · exact ⟨[], by rw [List.dropWhile_cons_of_neg (by simpa using h), List.nil_append]⟩

theorem dropWhile_eq_cons_head_false {p : α → Bool} {l : List α} {c : α} {rest : List α}
    (h : l.dropWhile p = c :: rest) : p c = false := by
  induction l with
  | nil => cases h
  | cons a l ih =>
      by_cases ha : p a = true
      · rw [List.dropWhile_cons_of_pos ha] at h
        exact ih h
      · rw [List.dropWhile_cons_of_neg (by simpa using ha)] at h
        cases h
        simpa using ha

theorem dropWhile_cons_eq_self {p : α → Bool} {c : α} {x : List α}
    (h : (c :: x).dropWhile p = c :: x) : p c = false := by
  by_cases hc : p c = true
  · exfalso
    rw [List.dropWhile_cons_of_pos hc] at h
    have hlen := congrArg List.length h
    have hle := (List.dropWhile_sublist (l := x) p).length_le
    simp only [List.length_cons] at hlen
    omega
  · simpa using hc

theorem rstrip_idem (p : α → Bool) (x : List α) :
    ((((x.reverse.dropWhile p).reverse).reverse.dropWhile p).reverse)
      = (x.reverse.dropWhile p).reverse := by
  rw [List.reverse_reverse, dropWhile_idem]

theorem lstrip_rstrip (p : α → Bool) (A : List α) (hA : A.dropWhile p = A) :
    ((A.reverse.dropWhile p).reverse).dropWhile p
      = (A.reverse.dropWhile p).reverse := by
  rcases dropWhile_exists_prefix p A.reverse with ⟨t, ht⟩
  have hsplit : (A.reverse.dropWhile p).reverse ++ t.reverse = A := by
    have h2 := congrArg List.reverse ht
    rw [List.reverse_append, List.reverse_reverse] at h2
    exact h2
  cases hR : (A.reverse.dropWhile p).reverse with
  | nil => rfl
  | cons c rest =>
      rw [hR] at hsplit
      have hA2 : A = c :: (rest ++ t.reverse) := by
        rw [← hsplit, List.cons_append]
      have hc : p c = false := by
        apply dropWhile_cons_eq_self (x := rest ++ t.reverse)
        rw [← hA2]
        exact hA
      exact List.dropWhile_cons_of_neg (by simp [hc])

theorem pyStrip_idem (s : Str) : pyStrip (pyStrip s) = pyStrip s := by
  unfold pyStrip
  rw [lstrip_rstrip Char.isWhitespace (s.dropWhile Char.isWhitespace)
    (dropWhile_idem _ s)]
  exact rstrip_idem Char.isWhitespace (s.dropWhile Char.isWhitespace)

theorem normalize_string_idem (s : Str) :
    normalize_string (normalize_string s) = normalize_string s := by
  unfold normalize_string
  rw [pyStrip_pyLower, pyStrip_idem, pyLower_pyLower]

/-! ### The snippet window -/

/-- On an already-normalized keyword (which is how `search_regulations`
calls it), `_extract_snippet` computes exactly the spec window construction
over the normalized field text. -/
theorem extract_snippet_eq_snippetSpec (text kw0 : Str) :
    extract_snippet text (normalize_string kw0) 100
      = snippetSpec text (normalize_string kw0) := by
  unfold extract_snippet snippetSpec
  rw [normalize_string_idem]
  cases hf : pyFind (normalize_string text) (normalize_string kw0) with
  | none =>
      by_cases hl : 100 * 2 < text.length
      · simp [hf, hl]
      · simp only [hf, if_neg hl]
        exact (List.take_of_length_le (by omega)).symm
  | some idx =>
      by_cases h1 : 0 < idx - 100 <;>
      by_cases h2 : min text.length (idx + (normalize_string kw0).length + 100)
          < text.length <;>
        simp [hf, h1, h2, List.append_assoc]

theorem exSearch2_eval : search_regulations exStore exKw2 = [exResult2] := by
  rw [search_regulations_eq_of_sorted exStore exKw2 (by decide)]
  decide

set_option maxRecDepth 40000 in
/-- C3 counterexample: the claim prescribes the context-window construction
(with the keyword located in the original-case text) for EVERY non-name
primary match. The code contradicts it twice. A `developer_guidance`
primary match keeps its full text: on `cexStore` the single result's
snippet is the whole 228-character guidance string, while the claim's
construction would elide it. And the occurrence is located in the
normalized text, not the original-case text: on `cexStore2` the summary
contains the keyword only as upper-case `GDPR`, the code still centres the
window on it, while the claim's original-case search misses it and would
fall back to the first 200 characters. -/
theorem claim_C3_counterexample :
    ((search_regulations cexStore ("control".data)).map SearchResult.match_type
        = [mtGuidance]
      ∧ (search_regulations cexStore ("control".data)).map SearchResult.snippet
        = [cexGuidance]
      ∧ cexGuidance ≠ snippetSpecClaim cexGuidance (normalize_string ("control".data)))
    ∧ ((search_regulations cexStore2 ("gdpr".data)).map SearchResult.match_type
        = [mtSummary]
      ∧ (search_regulations cexStore2 ("gdpr".data)).map SearchResult.snippet
        = [extract_snippet cexSummary (normalize_string ("gdpr".data)) 100]
      ∧ extract_snippet cexSummary (normalize_string ("gdpr".data)) 100
        ≠ snippetSpecClaim cexSummary (normalize_string ("gdpr".data))) := by
  have hs1 : search_regulations cexStore ("control".data)
      = searchPass (normalize_string ("control".data)) cexStore [] :=
    search_regulations_eq_of_sorted _ _ (by decide)
  have hs2 : search_regulations cexStore2 ("gdpr".data)
      = searchPass (normalize_string ("gdpr".data)) cexStore2 [] :=
    search_regulations_eq_of_sorted _ _ (by decide)
  rw [hs1, hs2]
  exact ⟨⟨by decide, by decide, by decide⟩, ⟨by decide, by decide, by decide⟩⟩

/-- C3 amended: a `summary` or `article_summary` primary match gets the
context window — the keyword located in the NORMALIZED field text, those
indices applied to the original-case text, up to 100 characters of context
each side clipped to the boundaries, `...` when the window starts or ends
mid-text, first-200-characters fallback when absent; article matches
(title and summary) are prefixed with `Article <number-or-N/A>: `; an
`article_title` match's snippet is the full title after the prefix, a
`developer_guidance` match's snippet is the full guidance string, and a
`name` match's snippet is the full untruncated name. -/
theorem claim_C3_amended_snippet (store : RegStore) (kw : Str)
    (hnd : (store.map Prod.fst).Nodup) :
    ∀ r ∈ search_regulations store kw,
      ∃ p ∈ store, r.id = p.1 ∧
        ∃ f, (orderedFields p.2).find? (isMatch (normalize_string kw)) = some f ∧
          r.snippet = f.tag ++
            (if f.ftype = mtSummary ∨ f.ftype = mtArticleSummary then
              snippetSpec f.text (normalize_string kw) else f.text) := by
  rw [search_regulations_eq_filterMap store kw hnd]
  intro r hr
  rcases List.mem_filterMap.mp (List.mem_mergeSort.mp hr) with ⟨p, hp, hso⟩
  obtain ⟨hid, _, ⟨f, hfind, _, hsnip⟩, _⟩ := searchOne_some_spec hso
  refine ⟨p, hp, hid, f, hfind, ?_⟩
  rw [hsnip]
  unfold fieldSnippet
  by_cases hft : f.ftype = mtSummary ∨ f.ftype = mtArticleSummary
  · rw [if_pos hft, if_pos hft, extract_snippet_eq_snippetSpec]
  · rw [if_neg hft, if_neg hft]

/-- C3 witness: the amended snippet rule at a concrete summary match. -/
theorem claim_C3_witness :
    (exStore.map Prod.fst).Nodup ∧ exResult2 ∈ search_regulations exStore exKw2 ∧
    (∃ p ∈ exStore, exResult2.id = p.1 ∧
      ∃ f, (orderedFields p.2).find? (isMatch (normalize_string exKw2)) = some f ∧
        exResult2.snippet = f.tag ++
          (if f.ftype = mtSummary ∨ f.ftype = mtArticleSummary then
            snippetSpec f.text (normalize_string exKw2) else f.text)) :=
  ⟨by decide, by rw [exSearch2_eval]; decide,
    claim_C3_amended_snippet exStore exKw2 (by decide) exResult2
      (by rw [exSearch2_eval]; decide)⟩

/-! ### Identifier lookups -/

/-- C5: `get_regulation` and `get_region` depend on their identifier
argument only through `normalize_string`: any two identifiers with the same
normalization (case variants, surrounding whitespace) give identical
results. -/
theorem claim_C5_normalized_lookup (store : RegStore) (rs : RegionStore)
    (st : Option RegStore) (s t : Str)
    (h : normalize_string s = normalize_string t) :
    get_regulation store s = get_regulation store t
    ∧ rs.get_region s st = rs.get_region t st := by
  constructor
  · unfold get_regulation
    rw [h]
  · simp only [RegionStore.get_region, h]

/-- C5 witness: `get(" GdPr ") = get("gdpr")` on concrete stores. -/
theorem claim_C5_witness :
    normalize_string (" GdPr ".data) = normalize_string ("gdpr".data)
    ∧ (get_regulation exStore (" GdPr ".data) = get_regulation exStore ("gdpr".data)
      ∧ RegionStore.get_region exRegionStore (" GdPr ".data) none
        = RegionStore.get_region exRegionStore ("gdpr".data) none) :=
  ⟨by decide,
    claim_C5_normalized_lookup exStore exRegionStore none _ _ (by decide)⟩

/-! ### Region aggregation -/

theorem aggregate_eq_filterMap (store : RegStore) (fs : FallbackFS) (nid : Str) :
    ∀ ids : List Str,
      aggregate store fs nid ids = ids.filterMap (resolveRef store fs nid) := by
  intro ids
  induction ids with
  | nil => rfl
  | cons reg_id rest ih =>
      rw [List.filterMap_cons]
      cases hg : get_regulation store reg_id with
      | some r => simp [aggregate, resolveRef, hg, ih, Option.orElse]
      | none =>
          cases hfs : dictGet (nid, reg_id) fs with
          | none => simp [aggregate, resolveRef, hg, hfs, ih, Option.orElse, Option.join]
          | some c =>
              cases c <;>
                simp [aggregate, resolveRef, hg, hfs, ih, Option.orElse, Option.join]

/-- C7: when the region exists and a regulation store is available,
`get_region` resolves the reference list elementwise and in order: a store
hit is used as-is, a store miss falls back to the
`<normalized-region-id>/<reg-id>.json` file when it exists and parses, and
an entry resolvable in neither place is silently dropped. -/
theorem claim_C7_region_aggregation (rs : RegionStore) (region_id : Str)
    (st : Option RegStore) (region : Region) (store : RegStore)
    (h1 : dictGet (normalize_string region_id) rs.regions = some region)
    (h2 : st.orElse (fun _ => rs.regulation_store) = some store) :
    rs.get_region region_id st = some
      { payload := region.payload,
        regulations := region.regulations.filterMap
          (resolveRef store rs.fallback_files (normalize_string region_id)) } := by
  simp only [RegionStore.get_region, h1, h2, aggregate_eq_filterMap]

/-- C7 witness: references `[gdpr, dora, missing]` with `gdpr` in the store,
`dora` only as a fallback file and `missing` nowhere resolve to exactly
`[gdpr-record, dora-record]`, in order. -/
theorem claim_C7_witness :
    RegionStore.get_region exRegionStore ("eu".data) none = some
      { payload := exRegion.payload,
        regulations := exRegion.regulations.filterMap
          (resolveRef exStore exRegionStore.fallback_files
            (normalize_string ("eu".data))) }
    ∧ exRegion.regulations.filterMap
        (resolveRef exStore exRegionStore.fallback_files
          (normalize_string ("eu".data)))
      = [exReg, doraReg] :=
  ⟨claim_C7_region_aggregation exRegionStore _ none exRegion exStore
      (by decide) (by decide),
    by decide⟩

/-- C8: a successful `get_region` keeps every field of the stored region
record except `regulations`, which is replaced by the resolved regulation
list — the empty list when no store is available. The raw id list is never
returned (the output type holds records, not id strings). -/
theorem claim_C8_region_frame (rs : RegionStore) (region_id : Str)
    (st : Option RegStore) (out : RegionOut)
    (h : rs.get_region region_id st = some out) :
    ∃ region, dictGet (normalize_string region_id) rs.regions = some region ∧
      out.payload = region.payload ∧
      (st.orElse (fun _ => rs.regulation_store) = none → out.regulations = []) ∧
      (∀ store, st.orElse (fun _ => rs.regulation_store) = some store →
        out.regulations = region.regulations.filterMap
          (resolveRef store rs.fallback_files (normalize_string region_id))) := by
  simp only [RegionStore.get_region] at h
  cases hd : dictGet (normalize_string region_id) rs.regions with
  | none => rw [hd] at h; cases h
  | some region =>
      rw [hd] at h
      cases ho : st.orElse (fun _ => rs.regulation_store) with
      | none =>
          rw [ho] at h
          cases h
          exact ⟨region, rfl, rfl, fun _ => rfl,
            fun store hs => Option.noConfusion hs⟩
      | some store₀ =>
          rw [ho] at h
          cases h
          refine ⟨region, rfl, rfl, fun hc => Option.noConfusion hc, ?_⟩
          intro store hs
          have hss := Option.some.inj hs
          subst hss
          exact aggregate_eq_filterMap store₀ rs.fallback_files _ region.regulations

/-- C8 witness: the frame property at the concrete `eu` region. -/
theorem claim_C8_witness :
    RegionStore.get_region exRegionStore ("eu".data) none = some exRegionOut ∧
    (∃ region, dictGet (normalize_string ("eu".data)) exRegionStore.regions
        = some region ∧
      exRegionOut.payload = region.payload ∧
      ((none : Option RegStore).orElse (fun _ => exRegionStore.regulation_store)
          = none → exRegionOut.regulations = []) ∧
      (∀ store, (none : Option RegStore).orElse
          (fun _ => exRegionStore.regulation_store) = some store →
        exRegionOut.regulations = exRegion.regulations.filterMap
          (resolveRef store exRegionStore.fallback_files
            (normalize_string ("eu".data))))) := by
  have hout : RegionStore.get_region exRegionStore ("eu".data) none
      = some exRegionOut := by decide
  have hregv : dictGet (normalize_string ("eu".data)) exRegionStore.regions
      = some exRegion := by decide
  refine ⟨hout, ?_⟩
  rcases claim_C8_region_frame exRegionStore ("eu".data) none exRegionOut hout with
    ⟨region, hreg, hpay, hnone, hsome⟩
  rw [hregv] at hreg
  have hregion := Option.some.inj hreg
  subst hregion
  exact ⟨exRegion, hregv, hpay, hnone, hsome⟩

/-! ### Startup loading -/

/-- C6 (evaluating the code at its failing inputs): the `except` clause of
the loading loop catches only `json.JSONDecodeError` and `KeyError`, so
with the root directory present a file parsing to a JSON scalar aborts at
`"id" in data` with an uncaught `TypeError`, a JSON string/array containing
`"id"` aborts at `data["id"]` with an uncaught `TypeError`, and a mapping
with a non-string id aborts inside `normalize_string` with an uncaught
`AttributeError` — contradicting the claim that construction fails fatally
only when the root is missing. The paths the claim describes correctly are
also evaluated: a decode failure is skipped with a diagnostic and loading
continues, an id-less mapping is skipped silently, the reserved
`regions.json` is never parsed, and a missing root is fatal. -/
theorem claim_C6_uncaught_abort_paths :
    load_regulations true [exScalarFile]
      = .error (.typeErrorAbort exScalarFile.fname)
    ∧ load_regulations true [exTextIdFile]
      = .error (.typeErrorAbort exTextIdFile.fname)
    ∧ load_regulations true [exBadIdFile]
      = .error (.attributeErrorAbort exBadIdFile.fname)
    ∧ load_regulations true [exGoodFile, exScalarFile]
      = .error (.typeErrorAbort exScalarFile.fname)
    ∧ (∀ files, load_regulations false files = .error .dirNotFound)
    ∧ (∃ out, load_regulations true [exBadFile, exNoIdFile, exGoodFile] = .ok out
        ∧ out.store = [("gdpr".data, exReg)]
        ∧ out.warnings = [warnMsg exBadFile.fname])
    ∧ (∃ out, load_regulations true
        [{ fname := "regions.json".data, content := .scalar }] = .ok out
        ∧ out.store = [] ∧ out.warnings = []) := by
  refine ⟨rfl, rfl, rfl, rfl, fun _ => rfl, ⟨_, rfl, by decide, by decide⟩,
    ⟨_, rfl, rfl, rfl⟩⟩


/-! ### The query façade -/

/-- C9: the façade's three operations are total functions whose outcomes
are response values, never thrown faults: `get_regulation` and `get_region`
answer with the record exactly when the store lookup succeeds and with an
`{error: ...}` dict exactly when it fails, and `search_regulations` turns an
empty store result into a one-element `{message: ...}` list — its response
is never the empty list. -/
theorem claim_C9_facade_responses (ctx : AppContext) (s : Str) :
    (∀ r, get_regulation ctx.regulation_store s = some r →
      facade_get_regulation ctx s = .record r)
    ∧ (facade_get_regulation ctx s = .error (regNotFoundMsg s)
        ↔ get_regulation ctx.regulation_store s = none)
    ∧ (∀ o, ctx.region_store.get_region s (some ctx.regulation_store) = some o →
      facade_get_region ctx s = .record o)
    ∧ (facade_get_region ctx s = .error (regionNotFoundMsg s)
        ↔ ctx.region_store.get_region s (some ctx.regulation_store) = none)
    ∧ (facade_search_regulations ctx s = [.message (noResultsMsg s)]
        ↔ search_regulations ctx.regulation_store s = [])
    ∧ facade_search_regulations ctx s ≠ [] := by
  refine ⟨?_, ?_, ?_, ?_, ?_, ?_⟩
  · intro r hr
    simp [facade_get_regulation, hr]
  · cases hg : get_regulation ctx.regulation_store s <;>
      simp [facade_get_regulation, hg]
  · intro o ho
    simp [facade_get_region, ho]
  · cases hg : ctx.region_store.get_region s (some ctx.regulation_store) <;>
      simp [facade_get_region, hg]
  · by_cases hres : search_regulations ctx.regulation_store s = []
    · simp [facade_search_regulations, hres]
    · simp only [facade_search_regulations, if_neg hres]
      constructor
      · intro hmap
        exfalso
        cases hl : search_regulations ctx.regulation_store s with
        | nil => exact hres hl
        | cons r rest =>
            rw [hl, List.map_cons] at hmap
            injection hmap with h1 h2
            exact SearchItem.noConfusion h1
      · intro hempty
        exact absurd hempty hres
  · by_cases hres : search_regulations ctx.regulation_store s = [] <;>
      simp [facade_search_regulations, hres]

/-- C9 witness: an unknown id and a no-match search on the concrete store. -/
theorem claim_C9_witness :
    facade_get_regulation exCtx ("nope".data)
      = .error (regNotFoundMsg ("nope".data))
    ∧ facade_search_regulations exCtx ("nonexistentkeywordxyz".data)
      = [.message (noResultsMsg ("nonexistentkeywordxyz".data))] := by
  have h := claim_C9_facade_responses exCtx ("nope".data)
  have h2 := claim_C9_facade_responses exCtx ("nonexistentkeywordxyz".data)
  refine ⟨h.2.1.mpr (by decide), h2.2.2.2.2.1.mpr ?_⟩
  rw [search_regulations_eq_of_sorted exCtx.regulation_store
    ("nonexistentkeywordxyz".data) (by decide)]
  decide

end MCP
